import Mathlib

/-!
# Verification of the yfass FaaS control plane

Shallow embedding of the core subsystems of the yfass repository
(function registry, user/token manager, sandbox driver argument
construction, deployment coordinator and reverse proxy) together with
proofs and refutations of the specification claims.

Hash maps (`scc::HashMap`, `scc::HashIndex`, `std::collections::HashMap`)
are modelled as association lists with unique keys; shared mutable cells
(`Arc<RwLock<Function>>`) are modelled as indices into a heap of cells, so
that reference equality of two registry entries is equality of their cell
indices.  Wall-clock instants (`time::UtcDateTime`) are modelled as `Int`.
-/

namespace Yfass

/-! ## Association-list maps

A model of a hash map: a list of key-value pairs in which keys are unique.
`lookupKV` finds the value at a key; `setKV` models in-place assignment to
an occupied entry; `removeKV` models `remove`; `insertNewKV` models the
failing-on-duplicate `insert` (`scc`'s `insert_sync`), and `insertIfAbsent`
models an `insert_sync` whose error result is dropped. -/

def lookupKV {α β : Type} [DecidableEq α] : List (α × β) → α → Option β
  | [], _ => none
  | (k', v) :: rest, k => if k = k' then some v else lookupKV rest k

def setKV {α β : Type} [DecidableEq α] (l : List (α × β)) (k : α) (v : β) : List (α × β) :=
  l.map fun kv => if kv.1 = k then (k, v) else kv

def removeKV {α β : Type} [DecidableEq α] (l : List (α × β)) (k : α) : List (α × β) :=
  l.filter fun kv => decide (kv.1 ≠ k)

def insertNewKV {α β : Type} [DecidableEq α] (l : List (α × β)) (k : α) (v : β) :
    Option (List (α × β)) :=
  if (lookupKV l k).isSome then none else some ((k, v) :: l)

def insertIfAbsent {α β : Type} [DecidableEq α] (l : List (α × β)) (k : α) (v : β) :
    List (α × β) :=
  if (lookupKV l k).isSome then l else (k, v) :: l

/-- Replace-or-add insertion, the semantics of `std::collections::HashMap::insert`. -/
def insertKV {α β : Type} [DecidableEq α] (l : List (α × β)) (k : α) (v : β) :
    List (α × β) :=
  if (lookupKV l k).isSome then setKV l k v else (k, v) :: l

/-- Decidable list membership as a `Bool`, the model of `HashSet::contains`. -/
def memB {α : Type} [DecidableEq α] (a : α) (l : List α) : Bool :=
  l.any fun x => decide (x = a)

/-! ## `src/user.rs` — users, groups, permissions, tokens -/

/-- `Permission` from `src/user.rs`. -/
inductive Permission : Type
  | Read
  | Write
  | Execute
  | Remove
  | Admin
  | Root
deriving DecidableEq, Fintype

/-- `Permission::contains` from `src/user.rs` lines 131-150, translated
clause by clause. -/
def Permission.contains (self other : Permission) : Bool :=
  if self = Permission.Root then
    true
  else
    match other with
    | Permission.Read =>
        match self with
        | Permission.Read | Permission.Write | Permission.Remove | Permission.Admin => true
        | _ => false
    | Permission.Write =>
        match self with
        | Permission.Write | Permission.Admin => true
        | _ => false
    | Permission.Remove =>
        match self with
        | Permission.Remove | Permission.Admin => true
        | _ => false
    | Permission.Admin =>
        match self with
        | Permission.Admin => true
        | _ => false
    | Permission.Execute =>
        match self with
        | Permission.Execute | Permission.Admin => true
        | _ => false
    | Permission.Root => false

/-- `Group` from `src/user.rs`. -/
inductive Group : Type
  | Permission (p : Permission)
  | Singular (name : String)
  | Custom (label : String)
deriving DecidableEq

/-- `User` from `src/user.rs`: the `groups` hash set is a list, the
`tokens` map sends a token string to its expiry instant. -/
structure User : Type where
  name : String
  groups : List Group
  tokens : List (String × Int)
deriving DecidableEq

/-- `User::is_in` (`src/user.rs` lines 48-55): `Singular` groups compare
against the user's name, all other groups against the group set. -/
def User.is_in (u : User) (g : Group) : Bool :=
  match g with
  | Group.Singular n => decide (u.name = n)
  | _ => memB g u.groups

/-- `User::is_token_valid` (`src/user.rs` lines 57-63); `now` stands for
the `UtcDateTime::now()` call, and the comparison is strict (`now < time`). -/
def User.is_token_valid (u : User) (token : String) (now : Int) : Bool :=
  match lookupKV u.tokens token with
  | some time => decide (now < time)
  | none => false

/-- `User::add_token` (`src/user.rs` lines 65-76): prune expired tokens
(`retain` keeps those with `now < time`), then insert the freshly
generated token with expiry `now + duration`.  The random token produced
by `gen_token(rng)` is the explicit parameter `tokenNew`. -/
def User.add_token (u : User) (tokenNew : String) (duration now : Int) : User × String :=
  let pruned := u.tokens.filter fun kv => decide (now < kv.2)
  ({ u with tokens := insertKV pruned tokenNew (now + duration) }, tokenNew)

/-- User-manager error kinds (`user::ManagerError` in `src/user.rs`). -/
inductive UserManagerError : Type
  | Io
  | ParseJson
  | Initialized
  | Duplicated
  | NotFound
deriving DecidableEq

/-- `UserManager` from `src/user.rs`: the `users` map, the token index
`tokens : token → user name`, the session root token, and the dirty flag. -/
structure UserManager : Type where
  users : List (String × User)
  tokens : List (String × String)
  root_token : String
  dirty : Bool
deriving DecidableEq

/-- `UserManager::auth` (`src/user.rs` lines 380-396): accept the root
token, otherwise resolve the token in the token index, resolve the user,
and require every group literally in `user.groups` (the code calls
`user.groups.contains(&g)` directly, not `User::is_in`, and consults no
clock).  A missing token or user yields `false` via `unwrap_or_default`. -/
def UserManager.auth (um : UserManager) (token : String) (groups : List Group) : Bool :=
  if um.root_token = token then
    true
  else
    match lookupKV um.tokens token with
    | none => false
    | some un =>
      match lookupKV um.users un with
      | none => false
      | some user => groups.all fun g => memB g user.groups

/-- `UserManager::add_token` (`src/user.rs` lines 428-445): look up the
user (`NotFound` when absent), delegate to `User::add_token`, then insert
`token → name` into the token index, discarding a duplicate-key failure
(`drop(self.tokens.insert_sync(..))`), and mark the manager dirty. -/
def UserManager.add_token (um : UserManager) (name tokenNew : String) (duration now : Int) :
    Except UserManagerError (UserManager × String) :=
  match lookupKV um.users name with
  | none => Except.error UserManagerError.NotFound
  | some u =>
    let r := User.add_token u tokenNew duration now
    Except.ok
      ({ um with
          users := setKV um.users name r.1
          tokens := insertIfAbsent um.tokens r.2 name
          dirty := true },
        r.2)

/-! ## `src/sandbox.rs` and `src/os/linux.rs` — sandbox configuration and
bubblewrap argument construction -/

/-- `SyscallFilterMode` from `src/os/linux.rs`. -/
inductive SyscallFilterMode : Type
  | Allow
  | Deny
deriving DecidableEq

/-- `SandboxConfigExt` from `src/os/linux.rs` (the Linux `platform_ext`). -/
structure SandboxConfigExt : Type where
  syscall_filter_mode : SyscallFilterMode
  syscall_filter : List String
  mount_procfs : Bool
  mount_devtmpfs : Bool
  mount_tmpfs : Bool
deriving DecidableEq

/-- `Default for SandboxConfigExt` (`src/os/linux.rs` lines 49-60). -/
def SandboxConfigExt.default : SandboxConfigExt :=
  { syscall_filter_mode := SyscallFilterMode.Deny
    syscall_filter := []
    mount_procfs := true
    mount_devtmpfs := true
    mount_tmpfs := false }

/-- `SandboxConfig` from `src/sandbox.rs`.  The `ro_entries` and `envs`
hash maps are association lists; iteration order of the source maps is
unspecified, which the claims account for by quantifying per entry. -/
structure SandboxConfig : Type where
  command : String
  args : List String
  ro_entries : List (String × Option String)
  envs : List (String × Option String)
  inherit_stdout : Bool
  platform_ext : SandboxConfigExt
deriving DecidableEq

/-- `Default for SandboxConfig` (`src/sandbox.rs` lines 95-107). -/
def SandboxConfig.default : SandboxConfig :=
  { command := ""
    args := []
    ro_entries := []
    envs := []
    inherit_stdout := false
    platform_ext := SandboxConfigExt.default }

/-- `bwrap_args` from `src/os/linux.rs` lines 150-267, translated
push-for-push.  `contents_path` is received and discarded
(`let _ = contents_path;` in the source: the bwrap process is spawned with
its working directory set to the contents path, so `./` resolves to it).
`bpf_fd` is the optional compiled-seccomp pipe file descriptor. -/
def bwrap_args (config : SandboxConfig) (contents_path : String) (bpf_fd : Option Nat) :
    List String :=
  let _ := contents_path
  let args : List String :=
    ["--unshare-all", "--share-net",
     "--new-session",
     "--ro-bind", "./", "/.__private_yfass_contents",
     "--chdir", "/.__private_yfass_contents",
     "--die-with-parent"]
  let args :=
    if config.platform_ext.mount_procfs then args ++ ["--proc", "/proc"] else args
  let args :=
    if config.platform_ext.mount_devtmpfs then args ++ ["--dev", "/dev"] else args
  let args :=
    if config.platform_ext.mount_tmpfs then args ++ ["--tmpfs", "/tmp"] else args
  let args := args ++ config.ro_entries.flatMap fun sd =>
    ["--ro-bind-try", sd.1, sd.2.getD sd.1]
  let args := config.envs.foldl
    (fun a kv =>
      match kv.2 with
      | some v => a ++ ["--setenv", kv.1, v]
      | none => a ++ ["--unsetenv", kv.1])
    args
  let args :=
    match bpf_fd with
    | some fd => args ++ ["--seccomp", toString fd]
    | none => args
  let args := args ++ ["--", config.command]
  args ++ config.args

/-- The three bwrap words contributed by one `ro_entries` entry. -/
def roBindArgs (sd : String × Option String) : List String :=
  ["--ro-bind-try", sd.1, sd.2.getD sd.1]

/-- The bwrap words contributed by one `envs` entry. -/
def envArgs (kv : String × Option String) : List String :=
  match kv.2 with
  | some v => ["--setenv", kv.1, v]
  | none => ["--unsetenv", kv.1]

/-! ## `src/func.rs` — the function registry -/

/-- `OwnedKey` from `src/func.rs`: the canonical pair `(name, version)`;
the `version` slot also carries aliases for alias entries. -/
structure OwnedKey : Type where
  name : String
  version : String
deriving DecidableEq

/-- `Key::to_string` / `Display for Key` (`src/func.rs` lines 195-199):
`"{name}@{version}"`. -/
def OwnedKey.toDirName (k : OwnedKey) : String :=
  k.name ++ "@" ++ k.version

/-- `Key::to_host_prefix` (`src/func.rs` lines 188-193): `"{version}.{name}"`. -/
def OwnedKey.toHostPre (k : OwnedKey) : String :=
  k.version ++ "." ++ k.name

/-- `Metadata` from `src/func.rs`. -/
structure Metadata : Type where
  name : String
  version : String
  version_alias : Option String
deriving DecidableEq

/-- `Config` from `src/func.rs`; the socket address is kept as its string
rendering, which is all the coordinator uses (`Authority::from_maybe_shared`
of `addr.to_string()`). -/
structure Config : Type where
  group : Option Group
  addr : String
  sandbox : SandboxConfig
deriving DecidableEq

/-- `Default for Config` (`src/func.rs` lines 67-76). -/
def Config.default : Config :=
  { group := none
    addr := "127.0.0.1:0"
    sandbox := SandboxConfig.default }

/-- `Function` from `src/func.rs`. -/
structure Function : Type where
  meta : Metadata
  config : Config
deriving DecidableEq

/-- `Default for Metadata` (`src/func.rs` lines 78-87). -/
def Metadata.default : Metadata :=
  { name := ""
    version := ""
    version_alias := none }

/-- The `functions: scc::HashMap<OwnedKey, Arc<RwLock<Function>>>` field of
`FunctionManager`.  A cell id (`Nat`) is an index into the `cells` heap and
models the identity of one `Arc<RwLock<Function>>`: two entries share a
cell in the source exactly when they carry the same cell id here. -/
structure FunctionMap : Type where
  cells : List Function
  entries : List (OwnedKey × Nat)
deriving DecidableEq

/-- Dereference a cell id, i.e. `cell.read()` / `cell.write()` access. -/
def FunctionMap.getCell (m : FunctionMap) (cid : Nat) : Function :=
  m.cells.getD cid { meta := Metadata.default, config := Config.default }

/-- Overwrite the function stored in a cell (a write through the
`RwLock`). -/
def FunctionMap.setCell (m : FunctionMap) (cid : Nat) (f : Function) : FunctionMap :=
  { m with cells := m.cells.set cid f }

/-- Function-manager error kinds (`func::ManagerError` in `src/func.rs`). -/
inductive FuncManagerError : Type
  | NotAliased
  | Io
  | ParseJson
  | Initialized
  | Duplicated
  | NotFound
deriving DecidableEq

/-- `FunctionManager::get` (`src/func.rs` lines 360-364): resolve a key —
canonical or alias — to its cell. -/
def FunctionMap.get (m : FunctionMap) (key : OwnedKey) : Option Nat :=
  lookupKV m.entries key

/-- `FunctionManager::priv_remove_alias` (`src/func.rs` lines 523-531):
remove the mapping at `(key.name, old_alias)`; always succeeds. -/
def FunctionMap.priv_remove_alias (m : FunctionMap) (key : OwnedKey) (oldAlias : String) :
    FunctionMap :=
  { m with entries := removeKV m.entries { name := key.name, version := oldAlias } }

/-- `FunctionManager::priv_add_alias` (`src/func.rs` lines 533-568).  Reads
the alias key off the newly aliased cell; if the registry has an occupied
entry at that key it is overwritten with the new cell (`*entry_alias =
new_aliased.clone()`), after which the source reads
`entry_alias.read().meta.version` — the version of the cell now stored in
the entry, i.e. of the *new* cell — to build `old_key`, and clears
`meta.version_alias` of the function found at `old_key`.  When `get_sync`
finds no entry at the alias key, no action is taken (in particular no
entry is inserted). -/
def FunctionMap.priv_add_alias (m : FunctionMap) (newAliased : Nat) :
    Except FuncManagerError Unit × FunctionMap :=
  let nfr := m.getCell newAliased
  match nfr.meta.version_alias with
  | none => (Except.error FuncManagerError.NotAliased, m)
  | some a =>
    let aliasKey : OwnedKey := { name := nfr.meta.name, version := a }
    match lookupKV m.entries aliasKey with
    | none => (Except.ok (), m)
    | some _ =>
      let m := { m with entries := setKV m.entries aliasKey newAliased }
      let oldKey : OwnedKey :=
        { name := aliasKey.name, version := (m.getCell newAliased).meta.version }
      match lookupKV m.entries oldKey with
      | some oldCid =>
        let oldFn := m.getCell oldCid
        (Except.ok (),
          m.setCell oldCid { oldFn with meta := { oldFn.meta with version_alias := none } })
      | none => (Except.ok (), m)

/-- `FunctionManager::priv_modify_alias` (`src/func.rs` lines 485-508):
look the key up (`NotFound` when absent); no-op when the alias is
unchanged; otherwise swap `meta.version_alias`, remove the previous alias
entry if one existed, and call `priv_add_alias` when the new alias is
`Some`. -/
def FunctionMap.priv_modify_alias (m : FunctionMap) (key : OwnedKey)
    (newAlias : Option String) : Except FuncManagerError Unit × FunctionMap :=
  match lookupKV m.entries key with
  | none => (Except.error FuncManagerError.NotFound, m)
  | some cid =>
    let f := m.getCell cid
    if f.meta.version_alias = newAlias then
      (Except.ok (), m)
    else
      let an := newAlias.isSome
      let ao := f.meta.version_alias
      let m := m.setCell cid { f with meta := { f.meta with version_alias := newAlias } }
      let m :=
        match ao with
        | some old => m.priv_remove_alias key old
        | none => m
      if an then m.priv_add_alias cid else (Except.ok (), m)

/-- `FunctionManager` from `src/func.rs`: the registry map plus the dirty
flag (the root directory only prefixes filesystem paths). -/
structure FunctionManager : Type where
  functions : FunctionMap
  dirty : Bool
deriving DecidableEq

/-- `FunctionManager::is_dirty`. -/
def FunctionManager.is_dirty (mgr : FunctionManager) : Bool :=
  mgr.dirty

/-- `FunctionManager::modify_alias` (`src/func.rs` lines 324-334):
`priv_modify_alias` then `mark_dirty`; on an error the `?` operator skips
`mark_dirty` but the map mutations made so far persist. -/
def FunctionManager.modify_alias (mgr : FunctionManager) (key : OwnedKey)
    (newAlias : Option String) : Except FuncManagerError Unit × FunctionManager :=
  let r := mgr.functions.priv_modify_alias key newAlias
  match r.1 with
  | Except.ok _ => (Except.ok (), { functions := r.2, dirty := true })
  | Except.error e => (Except.error e, { mgr with functions := r.2 })

/-- `FunctionManager::priv_remove_func` (`src/func.rs` lines 510-521):
remove the entry at `key` (`NotFound` when absent), remove the alias entry
named by the removed cell's `meta.version_alias` if any, then delete the
directory `<root>/<key.to_string()>` from the filesystem — modelled as the
list `fs` of existing directory names, where deleting a missing directory
is an I/O error. -/
def FunctionMap.priv_remove_func (m : FunctionMap) (fs : List String) (key : OwnedKey) :
    Except FuncManagerError Unit × FunctionMap × List String :=
  match lookupKV m.entries key with
  | none => (Except.error FuncManagerError.NotFound, m, fs)
  | some cid =>
    let m := { m with entries := removeKV m.entries key }
    let m :=
      match (m.getCell cid).meta.version_alias with
      | some a => m.priv_remove_alias key a
      | none => m
    let dir := key.toDirName
    if fs.contains dir then
      (Except.ok (), m, fs.filter fun d => decide (d ≠ dir))
    else
      (Except.error FuncManagerError.Io, m, fs)

/-- `FunctionManager::remove_func` (`src/func.rs` lines 348-358):
`priv_remove_func` then `mark_dirty` on success. -/
def FunctionManager.remove_func (mgr : FunctionManager) (fs : List String) (key : OwnedKey) :
    Except FuncManagerError Unit × FunctionManager × List String :=
  let r := mgr.functions.priv_remove_func fs key
  match r.1 with
  | Except.ok _ => (Except.ok (), { functions := r.2.1, dirty := true }, r.2.2)
  | Except.error e => (Except.error e, { mgr with functions := r.2.1 }, r.2.2)

/-- `FunctionManager::priv_write_all_to_fs` (`src/func.rs` lines 442-472):
fan out one serialization-plus-write per registry entry; each task's
result is logged and dropped (`drop(js.join_all().await)`), and the
function itself returns `Ok(())` unconditionally.  The per-function
filesystem outcome is the oracle `fsWrite`. -/
def FunctionManager.priv_write_all_to_fs (mgr : FunctionManager)
    (fsWrite : OwnedKey → Function → Except FuncManagerError Unit) :
    Except FuncManagerError Unit :=
  let results := mgr.functions.entries.map fun e => fsWrite e.1 (mgr.functions.getCell e.2)
  let _ := results
  Except.ok ()

/-- `FunctionManager::write_all_to_fs` (`src/func.rs` lines 293-301):
run `priv_write_all_to_fs`, propagate its error if any, then clear the
dirty flag. -/
def FunctionManager.write_all_to_fs (mgr : FunctionManager)
    (fsWrite : OwnedKey → Function → Except FuncManagerError Unit) :
    Except FuncManagerError Unit × FunctionManager :=
  match mgr.priv_write_all_to_fs fsWrite with
  | Except.error e => (Except.error e, mgr)
  | Except.ok _ => (Except.ok (), { mgr with dirty := false })

/-! ## `src/main.rs` — the deployment coordinator (`LocalCx::start_fn`) -/

/-- Errors of `src/main.rs` relevant to `start_fn`. -/
inductive CxError : Type
  | NotFound
  | InstanceAlreadyRunning
deriving DecidableEq

/-- The `handles` and `proxies` shared maps of `LocalCx` (`src/main.rs`
lines 36-50).  A sandbox handle is its numeric identity; a proxy authority
is the string parsed from `config.addr`. -/
structure CxState : Type where
  handles : List (OwnedKey × Nat)
  proxies : List (String × String)
deriving DecidableEq

/-- One primitive step taken by `start_fn`, recorded in program order. -/
inductive StartEvent : Type
  | spawned (h : Nat)
  | handleInserted (key : OwnedKey) (h : Nat)
  | freshHandleKilled (h : Nat)
  | proxyInserted (pre auth : String)
deriving DecidableEq

/-- `LocalCx::start_fn` (`src/main.rs` lines 217-239): fetch the function
(`NotFound` when absent), snapshot its `config.addr` as the upstream
authority (`Authority::from_maybe_shared` of a `SocketAddr` rendering
always succeeds), spawn the sandbox — the fresh handle is the parameter
`freshHandle`; a spawn I/O failure returns before either map is touched
and is outside this model — then `insert_sync` the handle: on a
duplicate-key failure kill the fresh handle and return
`InstanceAlreadyRunning` without touching the proxy table; on success
insert `(key.to_host_prefix() → authority)` into the proxy table
(`HashIndex::insert_sync` with dropped result).  The returned trace lists
the primitive steps in program order. -/
def LocalCx.start_fn (fm : FunctionMap) (st : CxState) (key : OwnedKey) (freshHandle : Nat) :
    Except CxError Unit × CxState × List StartEvent :=
  match lookupKV fm.entries key with
  | none => (Except.error CxError.NotFound, st, [])
  | some cid =>
    let authority := (fm.getCell cid).config.addr
    match lookupKV st.handles key with
    | some _ =>
      (Except.error CxError.InstanceAlreadyRunning, st,
        [StartEvent.spawned freshHandle, StartEvent.freshHandleKilled freshHandle])
    | none =>
      let st1 : CxState := { st with handles := (key, freshHandle) :: st.handles }
      let pre := key.toHostPre
      (Except.ok (),
        { st1 with proxies := insertIfAbsent st1.proxies pre authority },
        [StartEvent.spawned freshHandle, StartEvent.handleInserted key freshHandle,
          StartEvent.proxyInserted pre authority])

/-! ## `src/proxy.rs` — host-based routing (`forward_http_req`) -/

/-- `str::strip_suffix`: `some p` exactly when `s = p ++ sfx`. -/
def stripSfx (s sfx : List Char) : Option (List Char) :=
  if s.drop (s.length - sfx.length) = sfx then
    some (s.take (s.length - sfx.length))
  else
    none

/-- The routing-relevant fields of `LocalCx` (`src/main.rs` lines 46-47,
96-97): `host_with_dot_prefixed = ".{host}"`,
`host_port_with_dot_prefixed = ".{host}:{port}"`, and the proxy table.
The authority type is abstract. -/
structure ProxyCx (α : Type) : Type where
  host_with_dot_prefixed : List Char
  host_port_with_dot_prefixed : List Char
  proxies : List (List Char × α)

/-- The URI scheme written into the rewritten request. -/
inductive Scheme : Type
  | http
  | ws
deriving DecidableEq

/-- Observable outcome of `forward_http_req` for a plain HTTP request. -/
inductive ForwardOutcome (α : Type) : Type
  | missingHost
  | passToRouter
  | functionNotRunning
  | forwardTo (authority : α) (scheme : Scheme)
deriving DecidableEq

/-- The key-derivation step of `forward_http_req` (`src/proxy.rs` lines
25-28): strip `host_with_dot_prefixed`, falling back to
`host_port_with_dot_prefixed` (`strip_suffix(..).or_else(..)`). -/
def routeKey {α : Type} (cx : ProxyCx α) (s : List Char) : Option (List Char) :=
  match stripSfx s cx.host_with_dot_prefixed with
  | some k => some k
  | none => stripSfx s cx.host_port_with_dot_prefixed

/-- Modelled from the spec (section 4.5, claim C6): the same derivation
with the suffixes tried in the order the spec states them —
`".{host}:{port}"` first, then `".{host}"`. -/
def specRouteKey (hostDot hostPortDot : List Char) (s : List Char) : Option (List Char) :=
  match stripSfx s hostPortDot with
  | some k => some k
  | none => stripSfx s hostDot

/-- `forward_http_req` (`src/proxy.rs` lines 13-47) for a non-websocket
request: `MissingHost` when the `Host` header is absent; pass the request
to the API router when neither suffix strips; `FunctionNotRunning` when
the stripped prefix is not in the proxy table; otherwise rewrite the URI
authority to the table entry with scheme `http`. -/
def forward_http_req {α : Type} (cx : ProxyCx α) (host : Option (List Char)) :
    ForwardOutcome α :=
  match host with
  | none => ForwardOutcome.missingHost
  | some s =>
    match routeKey cx s with
    | none => ForwardOutcome.passToRouter
    | some funcKey =>
      match lookupKV cx.proxies funcKey with
      | none => ForwardOutcome.functionNotRunning
      | some a => ForwardOutcome.forwardTo a Scheme.http

/-- Index of the first `'.'` in a character list (list length when none),
used to show a host can never end in both routing suffixes at once. -/
def dotIdx : List Char → Nat
  | [] => 0
  | c :: cs => if c = '.' then 0 else dotIdx cs + 1

/-! ## Concrete scenario states used by the closed theorems and witnesses -/

/-- User `alice` holding only the `Read` permission group and no tokens. -/
def aliceReadOnly : User :=
  { name := "alice", groups := [Group.Permission Permission.Read], tokens := [] }

/-- A user manager holding only `alice`, before any token is issued. -/
def umBefore : UserManager :=
  { users := [("alice", aliceReadOnly)], tokens := [], root_token := "ROOT", dirty := false }

/-- `alice` after `add_token` with duration `0` at instant `100`: the
token `"T"` expires at instant `100` itself. -/
def aliceExpired : User :=
  { aliceReadOnly with tokens := [("T", 100)] }

/-- The manager state produced by `add_token(alice, duration 0)` at
instant `100`. -/
def umExpired : UserManager :=
  { users := [("alice", aliceExpired)], tokens := [("T", "alice")], root_token := "ROOT",
    dirty := true }

/-- User `alice` with an *empty* group set and a live token `"T"`. -/
def aliceNoGroups : User :=
  { name := "alice", groups := [], tokens := [("T", 1000)] }

/-- A user manager holding only the group-less `alice` with token `"T"`. -/
def umSingular : UserManager :=
  { users := [("alice", aliceNoGroups)], tokens := [("T", "alice")], root_token := "ROOT",
    dirty := false }

/-- Function `fn@v1` with no alias. -/
def fnV1 : Function :=
  { meta := { name := "fn", version := "v1", version_alias := none }, config := Config.default }

/-- A registry holding only `fn@v1`, canonically. -/
def fmSingle : FunctionManager :=
  { functions := { cells := [fnV1], entries := [({ name := "fn", version := "v1" }, 0)] }
    dirty := false }

/-- Function `fn@v1` whose `version_alias` is `latest`. -/
def fnV1Aliased : Function :=
  { meta := { name := "fn", version := "v1", version_alias := some "latest" }
    config := Config.default }

/-- Function `fn@v2` with no alias. -/
def fnV2 : Function :=
  { meta := { name := "fn", version := "v2", version_alias := none }, config := Config.default }

/-- A registry holding `fn@v1` (aliased to `latest`, with the alias entry
sharing cell 0) and `fn@v2`. -/
def fmTwo : FunctionManager :=
  { functions :=
      { cells := [fnV1Aliased, fnV2]
        entries := [({ name := "fn", version := "v1" }, 0),
                    ({ name := "fn", version := "latest" }, 0),
                    ({ name := "fn", version := "v2" }, 1)] }
    dirty := false }

/-- A registry holding `fn@v1` aliased to `latest`, both entries sharing
cell 0. -/
def fmAliased : FunctionManager :=
  { functions :=
      { cells := [fnV1Aliased]
        entries := [({ name := "fn", version := "v1" }, 0),
                    ({ name := "fn", version := "latest" }, 0)] }
    dirty := false }

/-- A registry for the coordinator witness: `fn@v1` listening on
`127.0.0.1:9000`. -/
def fmW : FunctionMap :=
  { cells := [{ meta := { name := "fn", version := "v1", version_alias := none }
                config := { group := none, addr := "127.0.0.1:9000"
                            sandbox := SandboxConfig.default } }]
    entries := [({ name := "fn", version := "v1" }, 0)] }

/-- An idle coordinator state: no handles, no proxy routes. -/
def stW : CxState :=
  { handles := [], proxies := [] }

/-! ## Helper lemmas about the map model -/

theorem lookupKV_removeKV_self {α β : Type} [DecidableEq α] (l : List (α × β)) (k : α) :
    lookupKV (removeKV l k) k = none := by
  induction l with
  | nil => rfl
  | cons kv rest ih =>
    by_cases hk : kv.1 = k
    · simpa [removeKV, hk] using ih
    · simpa [removeKV, lookupKV, hk, Ne.symm hk] using ih

theorem lookupKV_removeKV_ne {α β : Type} [DecidableEq α] (l : List (α × β)) (k k' : α)
    (h : k' ≠ k) : lookupKV (removeKV l k) k' = lookupKV l k' := by
  induction l with
  | nil => rfl
  | cons kv rest ih =>
    obtain ⟨k1, v1⟩ := kv
    by_cases hk : k1 = k
    · have hk' : ¬k' = k1 := fun hh => h (hh.trans hk)
      simp [removeKV, List.filter_cons, hk, lookupKV, hk', h]
      simpa [removeKV] using ih
    · by_cases hk2 : k' = k1
      · simp [removeKV, List.filter_cons, hk, lookupKV, hk2]
      · simp [removeKV, List.filter_cons, hk, lookupKV, hk2]
        simpa [removeKV] using ih

theorem lookupKV_insertIfAbsent_self {α β : Type} [DecidableEq α] (l : List (α × β))
    (k : α) (v : β) (h : lookupKV l k = none) :
    lookupKV (insertIfAbsent l k v) k = some v := by
  simp [insertIfAbsent, lookupKV, h]

/-- The `envs` loop of `bwrap_args` appends exactly `envArgs` per entry. -/
theorem envs_foldl_eq (l : List (String × Option String)) (a : List String) :
    l.foldl
      (fun a kv =>
        match kv.2 with
        | some v => a ++ ["--setenv", kv.1, v]
        | none => a ++ ["--unsetenv", kv.1])
      a = a ++ l.flatMap envArgs := by
  induction l generalizing a with
  | nil => simp
  | cons kv rest ih =>
    cases hv : kv.2 <;> simp [ih, envArgs, hv, List.append_assoc]

/-- Claim C7: for every sandbox config and contents path, `bwrap_args`
produces the argument list in exactly the order of section 4.1 of the
specification: the fixed head `--unshare-all --share-net --new-session
--ro-bind ./ <mount point> --chdir <mount point> --die-with-parent`, then
the conditional `--proc`, `--dev` and `--tmpfs` mounts, then one
`--ro-bind-try` triple per `ro_entries` entry, then `--setenv`/`--unsetenv`
per `envs` entry, then the optional `--seccomp <fd>`, then `--`, the
command, and its arguments. -/
theorem bwrap_args_spec (config : SandboxConfig) (contents_path : String)
    (bpf_fd : Option Nat) :
    bwrap_args config contents_path bpf_fd =
      ["--unshare-all", "--share-net"]
        ++ ["--new-session"]
        ++ ["--ro-bind", "./", "/.__private_yfass_contents",
            "--chdir", "/.__private_yfass_contents"]
        ++ ["--die-with-parent"]
        ++ (if config.platform_ext.mount_procfs then ["--proc", "/proc"] else [])
        ++ (if config.platform_ext.mount_devtmpfs then ["--dev", "/dev"] else [])
        ++ (if config.platform_ext.mount_tmpfs then ["--tmpfs", "/tmp"] else [])
        ++ config.ro_entries.flatMap roBindArgs
        ++ config.envs.flatMap envArgs
        ++ (match bpf_fd with
            | some fd => ["--seccomp", toString fd]
            | none => [])
        ++ ["--", config.command]
        ++ config.args := by
  cases hp : config.platform_ext.mount_procfs <;>
    cases hd : config.platform_ext.mount_devtmpfs <;>
      cases ht : config.platform_ext.mount_tmpfs <;>
        cases bpf_fd <;>
          simp [bwrap_args, hp, hd, ht, envs_foldl_eq] <;>
            rfl

/-- Claim C8: `Permission::contains` is reflexive, `Root` contains every
permission, `Admin` contains `Read`, `Write`, `Remove` and `Execute`,
`Write` and `Remove` each contain `Read`, and no two distinct non-`Root`
permissions contain each other. -/
theorem permission_contains_lattice :
    (∀ p : Permission, p.contains p = true) ∧
    (∀ p : Permission, Permission.Root.contains p = true) ∧
    (Permission.Admin.contains Permission.Read = true ∧
      Permission.Admin.contains Permission.Write = true ∧
      Permission.Admin.contains Permission.Remove = true ∧
      Permission.Admin.contains Permission.Execute = true) ∧
    (Permission.Write.contains Permission.Read = true ∧
      Permission.Remove.contains Permission.Read = true) ∧
    (∀ p q : Permission, p ≠ q → p ≠ Permission.Root → q ≠ Permission.Root →
      ¬(p.contains q = true ∧ q.contains p = true)) := by
  decide

/-- Witness for C8: the antisymmetry clause applied at the concrete pair
`Write`, `Remove`. -/
theorem permission_contains_lattice_witness :
    Permission.Write ≠ Permission.Remove ∧
    Permission.Write ≠ Permission.Root ∧
    Permission.Remove ≠ Permission.Root ∧
    ¬(Permission.Write.contains Permission.Remove = true ∧
      Permission.Remove.contains Permission.Write = true) :=
  ⟨by decide, by decide, by decide,
    permission_contains_lattice.2.2.2.2 Permission.Write Permission.Remove
      (by decide) (by decide) (by decide)⟩

/-- Claim C9: `write_all_to_fs` returns `Ok` and clears the dirty flag for
every manager state and every per-function filesystem outcome — also when
some or all per-function writes fail, since `priv_write_all_to_fs` drops
the joined task results. -/
theorem write_all_to_fs_clears_dirty (mgr : FunctionManager)
    (fsWrite : OwnedKey → Function → Except FuncManagerError Unit) :
    (mgr.write_all_to_fs fsWrite).1 = Except.ok () ∧
    ((mgr.write_all_to_fs fsWrite).2).is_dirty = false :=
  ⟨rfl, rfl⟩

/-- Claim C1, evaluated at its failing input: issuing token `"T"` to
`alice` with duration `0` at instant `100` makes the token invalid at
instant `200` by `User::is_token_valid`, yet `UserManager::auth` — which
consults only the token index and never an expiry — still returns `true`
for the `Read` permission group.  The claim says `auth` must return
`false` for every group set once the expiry has passed. -/
theorem auth_accepts_expired_token :
    UserManager.add_token umBefore "alice" "T" 0 100 = Except.ok (umExpired, "T") ∧
    User.is_token_valid aliceExpired "T" 200 = false ∧
    UserManager.auth umExpired "T" [Group.Permission Permission.Read] = true :=
  ⟨rfl, rfl, rfl⟩

/-- Claim C2, evaluated at its failing input: `User::is_in` holds for
`alice` and the group `Singular("alice")` (name equality), but
`UserManager::auth` — which tests `user.groups.contains(&g)` literally
instead of calling `is_in` — rejects `alice`'s valid token for exactly
that group.  The claim says `auth` must treat the owner as a member of
`Singular(n)` iff the user's name equals `n`. -/
theorem auth_singular_membership_ignores_name :
    User.is_in aliceNoGroups (Group.Singular "alice") = true ∧
    UserManager.auth umSingular "T" [Group.Singular "alice"] = false :=
  ⟨rfl, rfl⟩

/-- Claim C3, evaluated at its failing input: a successful
`modify_alias(fn@v1, Some("latest"))` on a registry that has no entry at
`(fn, latest)` sets the cell's `meta.version_alias` to `Some("latest")`
but inserts nothing at `(fn, latest)` — `priv_add_alias` only overwrites
an already-occupied entry — so the claimed invariant (an alias entry
sharing the canonical cell exists) is violated in the resulting state. -/
theorem modify_alias_fresh_alias_not_inserted :
    (fmSingle.modify_alias { name := "fn", version := "v1" } (some "latest")).1 =
      Except.ok () ∧
    lookupKV
        (fmSingle.modify_alias { name := "fn", version := "v1" }
          (some "latest")).2.functions.entries
        { name := "fn", version := "latest" } = none ∧
    ((fmSingle.modify_alias { name := "fn", version := "v1" }
          (some "latest")).2.functions.getCell 0).meta.version_alias = some "latest" :=
  ⟨rfl, rfl, rfl⟩

/-- Claim C4, evaluated at its failing input: with `fn@v1` aliased to
`latest` (cell 0) and `fn@v2` unaliased (cell 1),
`modify_alias(fn@v2, Some("latest"))` does repoint the `(fn, latest)`
entry at cell 1, but then clears `meta.version_alias` of the *new*
function (the source builds `old_key` from the entry it has just
overwritten), leaving cell 1 with `version_alias = None` and cell 0 still
carrying `version_alias = Some("latest")` — the exact opposite of the
claimed outcome for both cells. -/
theorem modify_alias_overwrite_clears_new_alias :
    fmTwo.modify_alias { name := "fn", version := "v2" } (some "latest") =
      (Except.ok (),
        { functions :=
            { cells := [fnV1Aliased, fnV2]
              entries := [({ name := "fn", version := "v1" }, 0),
                          ({ name := "fn", version := "latest" }, 1),
                          ({ name := "fn", version := "v2" }, 1)] }
          dirty := true }) ∧
    fnV1Aliased.meta.version_alias = some "latest" ∧
    fnV2.meta.version_alias = none :=
  ⟨rfl, rfl, rfl⟩

/-- Claim C5: when the handles map already contains a handle for `key`,
`start_fn` kills the freshly spawned handle, returns
`InstanceAlreadyRunning`, and leaves both maps (in particular the proxy
table) untouched; when the insertion succeeds, the pair
`(to_host_prefix(key) → authority)` is inserted into the proxy table, and
the recorded trace shows this insertion happening strictly after the
handle insertion. -/
theorem start_fn_spec (fm : FunctionMap) (st : CxState) (key : OwnedKey)
    (freshHandle cid : Nat) (hf : lookupKV fm.entries key = some cid) :
    (∀ h0, lookupKV st.handles key = some h0 →
      LocalCx.start_fn fm st key freshHandle =
        (Except.error CxError.InstanceAlreadyRunning, st,
          [StartEvent.spawned freshHandle, StartEvent.freshHandleKilled freshHandle])) ∧
    (lookupKV st.handles key = none →
      LocalCx.start_fn fm st key freshHandle =
        (Except.ok (),
          { handles := (key, freshHandle) :: st.handles
            proxies := insertIfAbsent st.proxies key.toHostPre (fm.getCell cid).config.addr },
          [StartEvent.spawned freshHandle, StartEvent.handleInserted key freshHandle,
            StartEvent.proxyInserted key.toHostPre (fm.getCell cid).config.addr]) ∧
      (lookupKV st.proxies key.toHostPre = none →
        lookupKV (LocalCx.start_fn fm st key freshHandle).2.1.proxies key.toHostPre =
          some (fm.getCell cid).config.addr)) := by
  refine ⟨?_, ?_⟩
  · intro h0 hrun
    simp [LocalCx.start_fn, hf, hrun]
  · intro hnone
    refine ⟨?_, ?_⟩
    · simp [LocalCx.start_fn, hf, hnone]
    · intro habs
      simp [LocalCx.start_fn, hf, hnone,
        lookupKV_insertIfAbsent_self _ _ _ habs]

/-- Witness for C5: deploying `fn@v1` on an idle coordinator inserts the
handle and then the proxy route `v1.fn → 127.0.0.1:9000`. -/
theorem start_fn_spec_witness :
    LocalCx.start_fn fmW stW { name := "fn", version := "v1" } 7 =
      (Except.ok (),
        { handles := [({ name := "fn", version := "v1" }, 7)]
          proxies := [("v1.fn", "127.0.0.1:9000")] },
        [StartEvent.spawned 7,
          StartEvent.handleInserted { name := "fn", version := "v1" } 7,
          StartEvent.proxyInserted "v1.fn" "127.0.0.1:9000"]) :=
  ((start_fn_spec fmW stW { name := "fn", version := "v1" } 7 0 rfl).2 rfl).1

/-- Claim C10: invoking `remove_func` with an alias key — an entry whose
cell's `meta.version` differs from the key's version slot — removes only
the alias mapping: the canonical entry still resolves to the same cell,
and that cell's `meta.version_alias` still names the removed alias, so
the function remains retrievable via its canonical key. -/
theorem remove_func_alias_key_spec (mgr : FunctionManager) (fs : List String)
    (name v a : String) (cid : Nat)
    (hva : v ≠ a)
    (halias : lookupKV mgr.functions.entries { name := name, version := a } = some cid)
    (hcanon : lookupKV mgr.functions.entries { name := name, version := v } = some cid)
    (hcell : (mgr.functions.getCell cid).meta.version = v ∧
      (mgr.functions.getCell cid).meta.version_alias = some a) :
    lookupKV (mgr.remove_func fs { name := name, version := a }).2.1.functions.entries
        { name := name, version := a } = none ∧
    lookupKV (mgr.remove_func fs { name := name, version := a }).2.1.functions.entries
        { name := name, version := v } = some cid ∧
    ((mgr.remove_func fs { name := name, version := a }).2.1.functions.getCell cid).meta
      = (mgr.functions.getCell cid).meta ∧
    ((mgr.remove_func fs { name := name, version := a }).2.1.functions.getCell cid).meta.version_alias
      = some a := by
  obtain ⟨hver, hal⟩ := hcell
  have hkeys : ({ name := name, version := v } : OwnedKey) ≠ { name := name, version := a } := by
    intro hh
    exact hva (congrArg OwnedKey.version hh)
  -- the registry state after the two entry removals; the cells heap is untouched
  have hstate :
      (mgr.remove_func fs { name := name, version := a }).2.1.functions =
        { cells := mgr.functions.cells
          entries := removeKV (removeKV mgr.functions.entries { name := name, version := a })
            { name := name, version := a } } := by
    simp only [FunctionManager.remove_func, FunctionMap.priv_remove_func, halias]
    have hcells : FunctionMap.getCell
        { cells := mgr.functions.cells
          entries := removeKV mgr.functions.entries { name := name, version := a } } cid
        = mgr.functions.getCell cid := rfl
    simp only [hcells, hal, FunctionMap.priv_remove_alias]
    cases hdir : (fs.contains (OwnedKey.toDirName { name := name, version := a })) <;> simp
  refine ⟨?_, ?_, ?_, ?_⟩
  · rw [hstate]
    exact lookupKV_removeKV_self _ _
  · rw [hstate]
    show lookupKV _ _ = _
    rw [lookupKV_removeKV_ne _ _ _ hkeys, lookupKV_removeKV_ne _ _ _ hkeys]
    exact hcanon
  · rw [hstate]
    rfl
  · rw [hstate]
    exact hal

/-- Witness for C10: removing `fn@latest` from a registry where the alias
`latest` and the canonical `fn@v1` share cell 0 leaves `fn@v1` in place
with its alias field intact. -/
theorem remove_func_alias_key_spec_witness :
    ("v1" : String) ≠ "latest" ∧
    (lookupKV (fmAliased.remove_func ["fn@v1"]
          { name := "fn", version := "latest" }).2.1.functions.entries
        { name := "fn", version := "latest" } = none ∧
      lookupKV (fmAliased.remove_func ["fn@v1"]
            { name := "fn", version := "latest" }).2.1.functions.entries
          { name := "fn", version := "v1" } = some 0 ∧
      ((fmAliased.remove_func ["fn@v1"]
            { name := "fn", version := "latest" }).2.1.functions.getCell 0).meta
        = (fmAliased.functions.getCell 0).meta ∧
      ((fmAliased.remove_func ["fn@v1"]
            { name := "fn", version := "latest" }).2.1.functions.getCell 0).meta.version_alias
        = some "latest") :=
  ⟨by decide,
    remove_func_alias_key_spec fmAliased ["fn@v1"] "fn" "v1" "latest" 0
      (by decide) rfl rfl ⟨rfl, rfl⟩⟩

/-! ## Proofs about the reverse-proxy routing (claim C6) -/

theorem stripSfx_some {s sfx p : List Char} (h : stripSfx s sfx = some p) :
    s = p ++ sfx := by
  unfold stripSfx at h
  by_cases hc : s.drop (s.length - sfx.length) = sfx
  · rw [if_pos hc] at h
    cases h
    conv_lhs => rw [← List.take_append_drop (s.length - sfx.length) s]
    rw [hc]
  · rw [if_neg hc] at h
    cases h

theorem stripSfx_append (p sfx : List Char) : stripSfx (p ++ sfx) sfx = some p := by
  have hl : (p ++ sfx).length - sfx.length = p.length := by
    simp
  simp [stripSfx, hl, List.drop_left, List.take_left]

theorem dotIdx_append_of_mem {l : List Char} (hm : '.' ∈ l) (u : List Char) :
    dotIdx (l ++ u) = dotIdx l := by
  induction l with
  | nil => cases hm
  | cons c cs ih =>
    by_cases hc : c = '.'
    · simp [dotIdx, hc]
    · have hm' : '.' ∈ cs := by
        rcases List.mem_cons.mp hm with h | h
        · exact absurd h.symm hc
        · exact h
      simp [dotIdx, hc, ih hm']

theorem dotIdx_append_of_not_mem {t : List Char} (ht : '.' ∉ t) (u : List Char) :
    dotIdx (t ++ u) = t.length + dotIdx u := by
  induction t with
  | nil => simp [dotIdx]
  | cons c cs ih =>
    have hc : ¬c = '.' := by
      intro h
      exact ht (by simp [h])
    have ht' : '.' ∉ cs := fun h => ht (List.mem_cons_of_mem _ h)
    simp [dotIdx, hc, ih ht']
    omega

/-- A host string can never end in both `".{host}"` and `".{host}:{port}"`
at once, for any port string free of dots: the first dot counted from the
end would have to sit at two different distances. -/
theorem not_both_suffixes {h q s p1 p2 : List Char} (hq : '.' ∉ q)
    (h1 : stripSfx s ('.' :: h) = some p1)
    (h2 : stripSfx s ('.' :: h ++ ':' :: q) = some p2) : False := by
  have e1 := stripSfx_some h1
  have e2 := stripSfx_some h2
  have key : p1 ++ ('.' :: h) = (p2 ++ ('.' :: h)) ++ (':' :: q) := by
    rw [← e1, List.append_assoc, ← e2]
  have keyR : ('.' :: h).reverse ++ p1.reverse =
      (':' :: q).reverse ++ (('.' :: h).reverse ++ p2.reverse) := by
    have := congrArg List.reverse key
    simpa [List.reverse_append, List.append_assoc] using this
  have hdotr : '.' ∈ ('.' :: h).reverse := by
    simp
  have hnt : '.' ∉ (':' :: q).reverse := by
    have hne : ('.' : Char) ≠ ':' := by decide
    simp [List.mem_reverse, List.mem_cons, hne, hq]
  have lhs := dotIdx_append_of_mem hdotr p1.reverse
  rw [keyR] at lhs
  rw [dotIdx_append_of_not_mem hnt, dotIdx_append_of_mem hdotr p2.reverse] at lhs
  have hlen : (':' :: q).reverse.length = q.length + 1 := by
    simp
  omega

/-- The order in which `forward_http_req` tries the two suffixes is
observationally irrelevant: the code's host-first derivation equals the
spec's port-first derivation on every host string. -/
theorem routeKey_eq_spec {α : Type} (h q : List Char) (table : List (List Char × α))
    (s : List Char) (hq : '.' ∉ q) :
    routeKey
        { host_with_dot_prefixed := '.' :: h
          host_port_with_dot_prefixed := '.' :: h ++ ':' :: q
          proxies := table } s
      = specRouteKey ('.' :: h) ('.' :: h ++ ':' :: q) s := by
  unfold routeKey specRouteKey
  cases h1 : stripSfx s ('.' :: h) with
  | none => cases h2 : stripSfx s ('.' :: h ++ ':' :: q) <;> simp
  | some p1 =>
    cases h2 : stripSfx s ('.' :: h ++ ':' :: q) with
    | none => simp
    | some p2 => exact (not_both_suffixes hq h1 h2).elim

/-- Claim C6: for every request carrying a host string, the proxy derives
the routing key by stripping the `".{host}:{port}"` or `".{host}"` suffix
(the code's attempt order and the spec's stated order agree on every
input, because no host string ends in both suffixes); when neither suffix
matches, the request is passed to the API router; when a suffix matches
but the prefix is absent from the proxy table, the request fails
`FunctionNotRunning`; when present, the request is forwarded to the
looked-up authority with scheme `http`. -/
theorem forward_http_req_spec {α : Type} (h q s : List Char) (table : List (List Char × α))
    (cx : ProxyCx α) (hq : '.' ∉ q)
    (hcx : cx =
      { host_with_dot_prefixed := '.' :: h
        host_port_with_dot_prefixed := '.' :: h ++ ':' :: q
        proxies := table }) :
    routeKey cx s = specRouteKey ('.' :: h) ('.' :: h ++ ':' :: q) s ∧
    (routeKey cx s = none → forward_http_req cx (some s) = ForwardOutcome.passToRouter) ∧
    (∀ k, routeKey cx s = some k →
      (lookupKV cx.proxies k = none →
        forward_http_req cx (some s) = ForwardOutcome.functionNotRunning) ∧
      (∀ a, lookupKV cx.proxies k = some a →
        forward_http_req cx (some s) = ForwardOutcome.forwardTo a Scheme.http)) := by
  subst hcx
  refine ⟨routeKey_eq_spec h q table s hq, ?_, ?_⟩
  · intro hnone
    simp only [List.cons_append] at hnone
    simp [forward_http_req, hnone]
  · intro k hk
    simp only [List.cons_append] at hk
    refine ⟨?_, ?_⟩
    · intro habs
      simp only [List.cons_append] at habs
      simp [forward_http_req, hk, habs]
    · intro a ha
      simp only [List.cons_append] at ha
      simp [forward_http_req, hk, ha]

/-- Witness for C6: with configured host `ex` and port `80`, a request for
host `a.ex` whose prefix `a` is routed in the proxy table is forwarded to
the stored authority over `http`. -/
theorem forward_http_req_spec_witness :
    forward_http_req
        { host_with_dot_prefixed := ['.', 'e', 'x']
          host_port_with_dot_prefixed := ['.', 'e', 'x', ':', '8', '0']
          proxies := [(['a'], "AUTH")] }
        (some ['a', '.', 'e', 'x']) = ForwardOutcome.forwardTo "AUTH" Scheme.http :=
  ((forward_http_req_spec ['e', 'x'] ['8', '0'] ['a', '.', 'e', 'x'] [(['a'], "AUTH")]
        { host_with_dot_prefixed := ['.', 'e', 'x']
          host_port_with_dot_prefixed := ['.', 'e', 'x', ':', '8', '0']
          proxies := [(['a'], "AUTH")] }
        (by decide) rfl).2.2 ['a'] (by decide)).2 "AUTH" rfl

end Yfass
